import Mathlib

/-!
A shallow embedding of the `doismellburning/chess` rules engine
(`chess.py`, `pieces.py`) and proofs checking the repository's
specification against it.

Conventions of the embedding:
* Python strings are `List Char`; piece identifiers are `Char`.
* Python `int` is `Int`; list indexing only ever happens at indices that
  are in range for the 8×8 boards the library builds, so out-of-range
  reads return `none` / leave the board unchanged where Python would
  raise `IndexError` (unreachable for the boards the library constructs).
* Functions that can raise return `Option`/`Except`; the exception kind
  is `MoveError`.
* Python `set`s of squares are `List BoardSquare`: every claim checked
  here only ever looks at membership and emptiness, which duplicates and
  order do not affect.
* `pieces.PIECE_MAP[piece]` raises `KeyError` for a character that is
  not one of the twelve piece identifiers; the embedding returns no
  squares for such characters.  This is only reachable on boards holding
  non-piece characters, which none of the checked claims touch.
-/

namespace Chess

/-- `chess._colour_of_piece`: `'w'` for `A..Z`, `'b'` for `a..z`,
`None` (here `none`) otherwise. -/
def colour_of_piece (piece : Char) : Option Char :=
  if 'A' ≤ piece ∧ piece ≤ 'Z' then some 'w'
  else if 'a' ≤ piece ∧ piece ≤ 'z' then some 'b'
  else none

/-- `chess.BoardSquare`: the file is kept as its character code
(`97 = 'a'` … `104 = 'h'`), the rank as the integer `1..8`.  The Python
constructor validates both bounds; squares built by the library always
satisfy `validSquare` below. -/
structure BoardSquare where
  file_ : Int
  rank_ : Int
deriving DecidableEq, Repr

/-- The bounds `BoardSquare.__init__` enforces. -/
def validSquare (s : BoardSquare) : Bool :=
  1 ≤ s.rank_ && s.rank_ ≤ 8 && 97 ≤ s.file_ && s.file_ ≤ 104

/-- `BoardSquare(file_letter, rank_number)` for a concrete square such as
`BoardSquare('e', 5)`. -/
def bsq (f : Char) (r : Int) : BoardSquare :=
  ⟨(f.toNat : Int), r⟩

/-- `BoardSquare.to_board_coordinates`. -/
def to_board_coordinates (s : BoardSquare) : Int × Int :=
  (8 - s.rank_, s.file_ - 97)

/-- `BoardSquare.delta`: the offset square, or `none` when the offset
leaves the board (the Python method catches `InvalidSquareException`). -/
def delta (s : BoardSquare) (file_delta rank_delta : Int) : Option BoardSquare :=
  let t : BoardSquare := ⟨s.file_ + file_delta, s.rank_ + rank_delta⟩
  if validSquare t then some t else none

/-- `chess._Board.squares`: 8 rows of 8 optional piece characters, row 0
being rank 8. -/
abbrev Board := List (List (Option Char))

/-- `chess._Board.piece_at_board_square`. -/
def piece_at (b : Board) (s : BoardSquare) : Option Char :=
  let c := to_board_coordinates s
  (b.getD c.1.toNat []).getD c.2.toNat none

/-- Writing one cell of the square array (`squares[i][j] = v`). -/
def set_square (b : Board) (s : BoardSquare) (v : Option Char) : Board :=
  let c := to_board_coordinates s
  b.set c.1.toNat ((b.getD c.1.toNat []).set c.2.toNat v)

/-- The iteration order of the library's full-board scans: files `a..h`
outermost, ranks `1..8` innermost. -/
def allSquares : List BoardSquare :=
  (List.range 8).flatMap fun i =>
    (List.range 8).map fun j => ⟨97 + (i : Int), 1 + (j : Int)⟩

/-- `pieces.Piece._generate_ends`: walk from `start` in steps of
`(rank_delta, file_delta)` up to `limit` squares, stopping at the edge,
before a friendly piece, or on (and including, when `can_take`) the
first enemy piece.  `pieceColour` is `self.color()`. -/
def generate_ends (b : Board) (pieceColour : Option Char) (start : BoardSquare)
    (rank_delta file_delta : Int) : Nat → Bool → List BoardSquare
  | 0, _ => []
  | Nat.succ k, can_take =>
    match delta start file_delta rank_delta with
    | none => []
    | some pos =>
      match piece_at b pos with
      | none => pos :: generate_ends b pieceColour pos rank_delta file_delta k can_take
      | some ep => if can_take && !(colour_of_piece ep == pieceColour) then [pos] else []

/-- `pieces.<Piece>.move_squares`, dispatched on the piece character as
`pieces.PIECE_MAP` does. -/
def move_squares (piece : Char) (b : Board) (start : BoardSquare) : List BoardSquare :=
  let col := colour_of_piece piece
  match piece with
  | 'n' | 'N' =>
    [(-1 : Int), 1].flatMap fun one =>
      [(-2 : Int), 2].flatMap fun two =>
        generate_ends b col start one two 1 true ++ generate_ends b col start two one 1 true
  | 'r' | 'R' =>
    generate_ends b col start 0 1 8 true ++ generate_ends b col start 0 (-1) 8 true ++
    generate_ends b col start 1 0 8 true ++ generate_ends b col start (-1) 0 8 true
  | 'b' | 'B' =>
    [(-1 : Int), 1].flatMap fun one =>
      [(-1 : Int), 1].flatMap fun two =>
        generate_ends b col start one two 8 true
  | 'q' | 'Q' =>
    ([(-1 : Int), 0, 1].flatMap fun one =>
      [(-1 : Int), 0, 1].flatMap fun two =>
        if one = 0 ∧ two = 0 then [] else generate_ends b col start one two 8 true)
  | 'k' | 'K' =>
    ([(-1 : Int), 0, 1].flatMap fun one =>
      [(-1 : Int), 0, 1].flatMap fun two =>
        if one = 0 ∧ two = 0 then [] else generate_ends b col start one two 1 true)
  | 'p' =>
    generate_ends b col start (-1) 0 (if start.rank_ = 7 then 2 else 1) false
  | 'P' =>
    generate_ends b col start 1 0 (if start.rank_ = 2 then 2 else 1) false
  | _ => []

/-- `pieces.<Piece>.threat_squares`.  Identical to `move_squares` for
every piece but the pawn, whose threats are its two forward diagonals. -/
def threat_squares (piece : Char) (b : Board) (start : BoardSquare) : List BoardSquare :=
  let col := colour_of_piece piece
  match piece with
  | 'p' =>
    [(-1 : Int), 1].flatMap fun one => generate_ends b col start (-1) one 1 true
  | 'P' =>
    [(-1 : Int), 1].flatMap fun one => generate_ends b col start 1 one 1 true
  | _ => move_squares piece b start

/-- `chess._Board.check_status`: the set of colours whose king square is
threatened by the other colour.  When several kings of one colour are on
the board, the last one in scan order wins, exactly as the Python loop's
repeated assignment does. -/
def check_status (b : Board) : List Char :=
  let occupied := allSquares.filterMap fun sq => (piece_at b sq).map fun p => (sq, p)
  let white_threats := (occupied.filter fun x => colour_of_piece x.2 == some 'w').flatMap
    fun x => threat_squares x.2 b x.1
  let black_threats := (occupied.filter fun x => colour_of_piece x.2 == some 'b').flatMap
    fun x => threat_squares x.2 b x.1
  let white_king := ((occupied.filter fun x => x.2 = 'K').map (·.1)).getLast?
  let black_king := ((occupied.filter fun x => x.2 = 'k').map (·.1)).getLast?
  (if match white_king with | some k => decide (k ∈ black_threats) | none => false then ['w'] else []) ++
  (if match black_king with | some k => decide (k ∈ white_threats) | none => false then ['b'] else [])

/-- `chess._Board._threat_squares(color)`: every square threatened by a
piece of `color`. -/
def threat_squares_of (b : Board) (color : Char) : List BoardSquare :=
  (allSquares.filterMap fun sq => (piece_at b sq).map fun p => (sq, p)).flatMap
    fun x => if colour_of_piece x.2 == some color then threat_squares x.2 b x.1 else []

/-- `chess.BasicMove`.  `promotion` is `none` or a single piece
character (the library is only ever exercised with one-character
promotion strings in the claims checked here). -/
structure BasicMove where
  start : BoardSquare
  end_ : BoardSquare
  promotion : Option Char
deriving DecidableEq, Repr

/-- `chess._Board.board_from_move`.  The source raises for an en-passant
target square outside ranks 3/6 and leaves `rook_from` unbound for a
two-file king move that does not end on c1/g1/c8/g8; both are
unreachable through `Game.move`, and the embedding leaves the board
unchanged there.  Note the source's black-kingside case really reads the
rook from h1 and writes it to f1. -/
def board_from_move (b : Board) (move : BasicMove) (en_passant : Option BoardSquare) : Board :=
  let piece : Option Char :=
    match move.promotion with
    | some p => some p
    | none => piece_at b move.start
  let b1 := set_square b move.end_ piece
  let b2 := set_square b1 move.start none
  let b3 :=
    if (piece = some 'k' ∨ piece = some 'K') ∧ (move.end_.file_ - move.start.file_).natAbs = 2 then
      let fromTo : Option (BoardSquare × BoardSquare) :=
        if move.end_ = bsq 'c' 1 then some (bsq 'a' 1, bsq 'd' 1)
        else if move.end_ = bsq 'g' 1 then some (bsq 'h' 1, bsq 'f' 1)
        else if move.end_ = bsq 'c' 8 then some (bsq 'a' 8, bsq 'd' 8)
        else if move.end_ = bsq 'g' 8 then some (bsq 'h' 1, bsq 'f' 1)
        else none
      match fromTo with
      | some (rook_from, rook_to) =>
        let rook := piece_at b2 rook_from
        set_square (set_square b2 rook_from none) rook_to rook
      | none => b2
    else b2
  match en_passant with
  | some ep =>
    if move.end_ = ep then
      if ep.rank_ = 3 then
        match delta move.end_ 0 1 with
        | some taken => set_square b3 taken none
        | none => b3
      else if ep.rank_ = 6 then
        match delta move.end_ 0 (-1) with
        | some taken => set_square b3 taken none
        | none => b3
      else b3
    else b3
  | none => b3

/-- `chess._CastlingState`. -/
structure CastlingState where
  white_kingside : Bool
  white_queenside : Bool
  black_kingside : Bool
  black_queenside : Bool
deriving DecidableEq, Repr

/-- `chess._CastlingState.__init__(fen)`. -/
def castling_of_fen (s : List Char) : CastlingState :=
  ⟨'K' ∈ s, 'Q' ∈ s, 'k' ∈ s, 'q' ∈ s⟩

/-- `chess._CastlingState.fen`. -/
def CastlingState.fen (c : CastlingState) : List Char :=
  let r := (if c.white_kingside then ['K'] else []) ++
    (if c.white_queenside then ['Q'] else []) ++
    (if c.black_kingside then ['k'] else []) ++
    (if c.black_queenside then ['q'] else [])
  if r = [] then ['-'] else r

/-- The exceptions `chess.Game`'s validation can raise. -/
inductive MoveError where
  | noPieceAtSquareE
  | notYourTurnE
  | invalidMoveE
  | moveMissingPromotionE
  | invalidPromotionDataE
  | otherE
deriving DecidableEq, Repr

/-- `chess.Game`.  `active` is the raw string of the FEN's second field
(the library never validates it at construction time). -/
structure Game where
  board : Board
  active : List Char
  castling : CastlingState
  en_passant : Option BoardSquare
  halfmove : Int
  fullmove : Int
deriving DecidableEq, Repr

/-! ### Text codecs: decimal numbers, splitting, FEN -/

/-- The character of a decimal digit. -/
def digitChar (n : Nat) : Char := Char.ofNat (48 + n)

/-- The numeric value of a decimal digit character, `none` otherwise. -/
def digitVal (c : Char) : Option Nat :=
  if '0' ≤ c ∧ c ≤ '9' then some (c.toNat - 48) else none

/-- Decimal rendering with explicit fuel (so that the kernel can reduce
it); `natRepr` below always supplies enough. -/
def natReprAux : Nat → Nat → List Char
  | 0, _ => []
  | Nat.succ fuel, n =>
    if n < 10 then [digitChar n]
    else natReprAux fuel (n / 10) ++ [digitChar (n % 10)]

/-- Python's `"%d" % n` for a natural number. -/
def natRepr (n : Nat) : List Char := natReprAux (n + 1) n

/-- Python's `"%d" % n` for an `int`. -/
def intRepr (n : Int) : List Char :=
  if n < 0 then '-' :: natRepr (-n).toNat else natRepr n.toNat

def parseDigitsAux : List Char → Nat → Option Nat
  | [], acc => some acc
  | c :: cs, acc =>
    match digitVal c with
    | some d => parseDigitsAux cs (acc * 10 + d)
    | none => none

/-- A non-empty all-digit string read as a natural number. -/
def parseNatDigits : List Char → Option Nat
  | [] => none
  | cs => parseDigitsAux cs 0

/-- Embedding of Python `int(s)` as the FEN fields use it: an optional
sign followed by digits (CPython's tolerance for surrounding whitespace
and `_` separators is not modelled; no checked claim feeds it such
text). -/
def parseInt (s : List Char) : Option Int :=
  match s with
  | [] => none
  | c :: cs =>
    if c = '-' then (parseNatDigits cs).map fun n => -(n : Int)
    else if c = '+' then (parseNatDigits cs).map fun n => (n : Int)
    else (parseNatDigits (c :: cs)).map fun n => (n : Int)

/-- Python `s.split(sep)` for a one-character separator: split at every
occurrence, keeping empty fields. -/
def splitOnChar (sep : Char) : List Char → List (List Char)
  | [] => [[]]
  | c :: cs =>
    match splitOnChar sep cs with
    | [] => [[]]
    | r :: rs => if c = sep then [] :: r :: rs else (c :: r) :: rs

/-- Python `sep.join(fields)` for a one-character separator. -/
def joinSep (sep : Char) : List (List Char) → List Char
  | [] => []
  | [x] => x
  | x :: xs => x ++ sep :: joinSep sep xs

/-- One rank of `_Board.__init__(fen=...)`: digits `1..8` become runs of
empty squares, any other character a piece. -/
def parseRow : List Char → List (Option Char)
  | [] => []
  | c :: cs =>
    if '1' ≤ c ∧ c ≤ '8' then List.replicate (c.toNat - 48) none ++ parseRow cs
    else some c :: parseRow cs

/-- `_Board.__init__(fen=...)`: `none` where the Python asserts (each
row 8 squares, 8 rows) fail. -/
def board_of_fen (s : List Char) : Option Board :=
  let rows := (splitOnChar '/' s).map parseRow
  if rows.all (fun r => r.length == 8) && rows.length == 8 then some rows else none

/-- The run-length accumulator loop of `_Board.fen` over one row. -/
def rowStrAux : List (Option Char) → Nat → List Char
  | [], 0 => []
  | [], Nat.succ k => natRepr (k + 1)
  | none :: rest, k => rowStrAux rest (k + 1)
  | some c :: rest, 0 => c :: rowStrAux rest 0
  | some c :: rest, Nat.succ k => natRepr (k + 1) ++ c :: rowStrAux rest 0

/-- One row of `_Board.fen`. -/
def row_fen (row : List (Option Char)) : List Char := rowStrAux row 0

/-- `_Board.fen`. -/
def board_fen (b : Board) : List Char := joinSep '/' (b.map row_fen)

/-- `_Board.__init__()` with no arguments: the starting position. -/
def defaultBoard : Board :=
  [['r','n','b','q','k','b','n','r'].map some,
   List.replicate 8 (some 'p'),
   List.replicate 8 none,
   List.replicate 8 none,
   List.replicate 8 none,
   List.replicate 8 none,
   List.replicate 8 (some 'P'),
   ['R','N','B','Q','K','B','N','R'].map some]

/-- `BoardSquare.__init__(file_rank)` on the FEN en-passant field: only
the first two characters are read, exactly as `file_rank[0]` /
`int(file_rank[1])` do. -/
def parseSquare (s : List Char) : Option BoardSquare :=
  match s with
  | f :: r :: _ =>
    match digitVal r with
    | some rv =>
      let t : BoardSquare := ⟨(f.toNat : Int), (rv : Int)⟩
      if validSquare t then some t else none
    | none => none
  | _ => none

/-- `str(BoardSquare)`: `"%s%d" % (file_, rank_)`. -/
def sqStr (s : BoardSquare) : List Char :=
  Char.ofNat s.file_.toNat :: natRepr s.rank_.toNat

/-- `Game.__init__()` with no FEN. -/
def defaultGame : Game :=
  ⟨defaultBoard, ['w'], ⟨true, true, true, true⟩, none, 0, 1⟩

/-- `Game.__init__(fen)`.  A falsy argument (the empty string) gives the
starting position; a six-field FEN is parsed field by field; anything
that raises in Python (wrong field count, bad board shape, bad integer,
bad en-passant square) is `none`. -/
def Game.ofFen (text : List Char) : Option Game :=
  if text = [] then some defaultGame
  else
    match splitOnChar ' ' text with
    | [board_str, active, castling, en_passant, halfmove, fullmove] =>
      match board_of_fen board_str, parseInt halfmove, parseInt fullmove with
      | some b, some hm, some fm =>
        match (if en_passant = ['-'] then some none else (parseSquare en_passant).map some) with
        | some ep => some ⟨b, active, castling_of_fen castling, ep, hm, fm⟩
        | none => none
      | _, _, _ => none
    | _ => none

/-- `Game.fen`. -/
def Game.fen (g : Game) : List Char :=
  joinSep ' ' [board_fen g.board, g.active, g.castling.fen,
    (match g.en_passant with | some s => sqStr s | none => ['-']),
    intRepr g.halfmove, intRepr g.fullmove]

/-! ### Game: legality, validation, state transition -/

/-- `Game._is_promotion_move`. -/
def is_promotion_move (g : Game) (m : BasicMove) : Bool :=
  match piece_at g.board m.start with
  | some 'p' => m.end_.rank_ = 1
  | some 'P' => m.end_.rank_ = 8
  | _ => false

/-- `chess.WHITE_PROMOTION_OPTIONS = frozenset('PRNBKQ') - set('P')`:
note that it contains `'K'`. -/
def WHITE_PROMOTION_OPTIONS : List Char := ['R', 'N', 'B', 'K', 'Q']

/-- `chess.BLACK_PROMOTION_OPTIONS`: likewise contains `'k'`. -/
def BLACK_PROMOTION_OPTIONS : List Char := ['r', 'n', 'b', 'k', 'q']

/-- `Game.valid_ends(start, check_check)`.  The condition guarding the
castling block keeps the Python operator precedence of
`piece == 'k' or piece == 'K' and start not in opposing_threats`:
the not-attacked test binds to the white case only. -/
def valid_ends (g : Game) (start : BoardSquare) (check_check : Bool := true) :
    Except MoveError (List BoardSquare) :=
  match piece_at g.board start with
  | none => .error .noPieceAtSquareE
  | some piece =>
    if !(match colour_of_piece piece with
         | some c => decide (g.active = [c])
         | none => false) then .error .notYourTurnE
    else
      let ms := move_squares piece g.board start
      let ts := threat_squares piece g.board start
      let extra := (ts.filter fun t => decide (t ∉ ms)).filter fun t =>
        decide (piece_at g.board t ≠ none ∨
          (g.en_passant = some t ∧ (piece = 'p' ∨ piece = 'P')))
      let ends0 := ms ++ extra
      let other : Char := if colour_of_piece piece == some 'w' then 'b' else 'w'
      let opposing := threat_squares_of g.board other
      let can_castle_through_or_to : BoardSquare → Bool := fun s =>
        (piece_at g.board s).isNone && decide (s ∉ opposing)
      let ends1 :=
        if piece = 'k' ∨ (piece = 'K' ∧ start ∉ opposing) then
          if piece = 'k' then
            (if g.castling.black_kingside &&
                can_castle_through_or_to (bsq 'f' 8) && can_castle_through_or_to (bsq 'g' 8)
             then [bsq 'g' 8] else []) ++
            (if g.castling.black_queenside &&
                can_castle_through_or_to (bsq 'b' 8) && can_castle_through_or_to (bsq 'c' 8) &&
                can_castle_through_or_to (bsq 'd' 8)
             then [bsq 'c' 8] else [])
          else if piece = 'K' then
            (if g.castling.white_kingside &&
                can_castle_through_or_to (bsq 'f' 1) && can_castle_through_or_to (bsq 'g' 1)
             then [bsq 'g' 1] else []) ++
            (if g.castling.white_queenside &&
                can_castle_through_or_to (bsq 'b' 1) && can_castle_through_or_to (bsq 'c' 1) &&
                can_castle_through_or_to (bsq 'd' 1)
             then [bsq 'c' 1] else [])
          else []
        else []
      let ends := ends0 ++ ends1
      if check_check then
        .ok (ends.filter fun e =>
          (check_status (board_from_move g.board ⟨start, e, none⟩ g.en_passant)).all
            fun c => decide (g.active ≠ [c]))
      else .ok ends

/-- `Game.validate_move`: `none` when the move validates, otherwise the
exception raised. -/
def validate_move (g : Game) (m : BasicMove) : Option MoveError :=
  match piece_at g.board m.start with
  | none => some .noPieceAtSquareE
  | some piece =>
    match valid_ends g m.start true with
    | .error e => some e
    | .ok ends =>
      if m.end_ ∉ ends then some .invalidMoveE
      else
        match m.promotion with
        | some promo =>
          if ¬ is_promotion_move g m then some .invalidPromotionDataE
          else if colour_of_piece piece = some 'w' ∧ promo ∉ WHITE_PROMOTION_OPTIONS then
            some .invalidPromotionDataE
          else if colour_of_piece piece = some 'b' ∧ promo ∉ BLACK_PROMOTION_OPTIONS then
            some .invalidPromotionDataE
          else none
        | none =>
          if is_promotion_move g m then some .moveMissingPromotionE else none

/-- `Game.move`: validate, rebuild a fresh game from the serialized FEN
(`Game(self.fen())`), then apply the move and update turn state.  The
source's `assert self.active in ('b', 'w')` cannot fire once validation
passed (validation requires the active string to equal the moved
piece's colour); `Game(self.fen())` likewise reparses successfully for
every game the library itself constructs, and `.error .otherE` stands
for the raise on any other record.  The source assigns the new board
first; since no later field update reads it, the embedding attaches the
board in the final record instead, keeping the data flow identical. -/
def Game.move (g : Game) (m : BasicMove) : Except MoveError Game :=
  match validate_move g m with
  | some e => .error e
  | none =>
    let piece := piece_at g.board m.start
    match Game.ofFen (Game.fen g) with
    | none => .error .otherE
    | some ng0 =>
      let ng2 :=
        if g.active = ['b'] then { ng0 with active := ['w'], fullmove := ng0.fullmove + 1 }
        else if g.active = ['w'] then { ng0 with active := ['b'] } else ng0
      let ng3 := { ng2 with en_passant := none }
      let ng4 :=
        if piece = some 'p' ∨ piece = some 'P' then
          { ng3 with
            halfmove := 0
            en_passant :=
              if m.end_.rank_ - m.start.rank_ = 2 then delta m.start 0 1
              else if m.end_.rank_ - m.start.rank_ = -2 then delta m.start 0 (-1)
              else none }
        else { ng3 with halfmove := ng3.halfmove + 1 }
      let ng5 :=
        if piece = some 'r' then
          if m.start.file_ = 97 then
            { ng4 with castling := { ng4.castling with black_queenside := false } }
          else if m.start.file_ = 104 then
            { ng4 with castling := { ng4.castling with black_kingside := false } }
          else ng4
        else if piece = some 'k' then
          { ng4 with castling :=
            { ng4.castling with black_queenside := false, black_kingside := false } }
        else if piece = some 'R' then
          if m.start.file_ = 97 then
            { ng4 with castling := { ng4.castling with white_queenside := false } }
          else if m.start.file_ = 104 then
            { ng4 with castling := { ng4.castling with white_kingside := false } }
          else ng4
        else if piece = some 'K' then
          { ng4 with castling :=
            { ng4.castling with white_queenside := false, white_kingside := false } }
        else ng4
      .ok { ng5 with board := board_from_move ng0.board m g.en_passant }

/-- `Game._can_move`: `True` when some piece of the active colour has a
legal destination. -/
def can_move (g : Game) : Bool :=
  allSquares.any fun sq =>
    match piece_at g.board sq with
    | none => false
    | some piece =>
      (match colour_of_piece piece with
       | some c => decide (g.active = [c])
       | none => false) &&
      (match valid_ends g sq true with
       | .ok l => !l.isEmpty
       | .error _ => false)

/-- `Game.is_checkmate`. -/
def is_checkmate (g : Game) : Bool :=
  ((check_status g.board).any fun c => decide (g.active = [c])) && !can_move g

/-- `Game.is_stalemate`. -/
def is_stalemate (g : Game) : Bool :=
  (!(check_status g.board).any fun c => decide (g.active = [c])) && !can_move g

instance {α : Type} [DecidableEq α] : DecidableEq (Except MoveError α) := fun a b =>
  match a, b with
  | .error x, .error y => decidable_of_iff (x = y) (by simp)
  | .ok x, .ok y => decidable_of_iff (x = y) (by simp)
  | .error _, .ok _ => isFalse (by simp)
  | .ok _, .error _ => isFalse (by simp)

/-! ### Claim-side specification data: shape predicate, concrete
positions, and the syntactic FEN validity of claim C5 -/

/-- The 8-rows-of-8 shape of every board the library constructs. -/
def BoardShape (b : Board) : Prop := b.length = 8 ∧ ∀ r ∈ b, r.length = 8

/-- The board of `k7/8/8/8/pP6/8/1P6/7K b - b3 0 1`: black pawn a4 about
to capture en passant on b3; white pawns on b4 (north of the target) and
b2 (south of the target). -/
def epCaptureBoard : Board :=
  ((Game.ofFen ("k7/8/8/8/pP6/8/1P6/7K b - b3 0 1".toList)).getD defaultGame).board

/-- `k7/8/8/1n6/P7/8/8/7K b - a3 0 1`: black knight b5, white pawn a4,
en-passant target a3 (the square a knight can legally land on). -/
def knightEpGame : Game :=
  (Game.ofFen ("k7/8/8/1n6/P7/8/8/7K b - a3 0 1".toList)).getD defaultGame

/-- The game after the black knight jumps b5→a3 onto the en-passant
target. -/
def knightEpMoved : Game :=
  ((knightEpGame.move ⟨bsq 'b' 5, bsq 'a' 3, none⟩).toOption).getD defaultGame

/-- C8's amended reading of `Pawn.threat_squares`: the forward-diagonal
squares that are on the board and **not occupied by a same-colour
piece** (empty and enemy-occupied diagonals are always included). -/
def pawnThreatSpec (b : Board) (start : BoardSquare) (rdir : Int) (col : Option Char) :
    List BoardSquare :=
  ([delta start (-1) rdir, delta start 1 rdir].filterMap id).filter
    fun t => match piece_at b t with
      | none => true
      | some q => colour_of_piece q != col

/-- Board of `k7/8/8/8/8/3P4/4P3/K7`: a white pawn on e2 whose d3
diagonal holds a *friendly* pawn. -/
def pawnThreatBoard : Board :=
  ((Game.ofFen ("k7/8/8/8/8/3P4/4P3/K7 w - - 0 1".toList)).getD defaultGame).board

/-- Whether a character is a decimal digit. -/
def isDigitChar (c : Char) : Bool := '0' ≤ c && c ≤ '9'

/-- A non-empty all-digit string (the syntactic form of the claim's
"non-negative integer" clock fields). -/
def claimValidClock (s : List Char) : Bool := !s.isEmpty && s.all isDigitChar

/-- A canonical decimal numeral: no leading zero except for `"0"`. -/
def canonicalNat (s : List Char) : Bool :=
  claimValidClock s && (s == ['0'] || s.head? != some '0')

/-- The twelve piece identifiers. -/
def isPieceChar (c : Char) : Bool :=
  decide (c ∈ ['P', 'N', 'B', 'R', 'Q', 'K', 'p', 'n', 'b', 'r', 'q', 'k'])

/-- The digits `'1'..'8'` that a FEN rank may contain. -/
def isDigit18 (c : Char) : Bool := '1' ≤ c && c ≤ '8'

/-- No two consecutive characters are digits (the canonical-FEN rank
restriction: runs of empty squares are written as one digit). -/
def noAdjacentDigits : List Char → Bool
  | [] => true
  | [_] => true
  | c1 :: c2 :: rest => !(isDigit18 c1 && isDigit18 c2) && noAdjacentDigits (c2 :: rest)

/-- A rank string as the claim describes it: piece letters and digits
1–8, decoding to exactly 8 files. -/
def claimValidRank (s : List Char) : Bool :=
  s.all (fun c => isPieceChar c || isDigit18 c) && (parseRow s).length == 8

/-- A board string as the claim describes it: 8 `/`-separated rank
strings. -/
def claimValidBoard (s : List Char) : Bool :=
  (splitOnChar '/' s).length == 8 && (splitOnChar '/' s).all claimValidRank

/-- The claim's en-passant field: `-` or a square code. -/
def claimValidEp (s : List Char) : Bool :=
  s == ['-'] ||
    (match s with
     | [f, r] => 'a' ≤ f && f ≤ 'h' && '1' ≤ r && r ≤ '8'
     | _ => false)

/-- The sixteen castling fields the claim admits: subsets of `KQkq` in
order, or `-`. -/
def castlingStrings : List (List Char) :=
  [['-'], ['K'], ['Q'], ['k'], ['q'], ['K','Q'], ['K','k'], ['K','q'], ['Q','k'], ['Q','q'],
   ['k','q'], ['K','Q','k'], ['K','Q','q'], ['K','k','q'], ['Q','k','q'], ['K','Q','k','q']]

/-- FEN validity exactly as the claim words it: six space-separated
fields; 8 rank strings of piece letters and digits 1–8 decoding to 8
files each; active colour `w`/`b`; castling a subset of `KQkq` in order
or `-`; an en-passant square or `-`; a non-negative (all-digit)
half-move clock; a positive full-move number. -/
def claimValidFEN (t : List Char) : Bool :=
  match splitOnChar ' ' t with
  | [b, a, c, e, hm, fm] =>
    claimValidBoard b && (a == ['w'] || a == ['b']) && decide (c ∈ castlingStrings) &&
    claimValidEp e && claimValidClock hm && (claimValidClock fm && fm.any (fun x => x != '0'))
  | _ => false

/-- The amended validity: additionally no rank string writes a run of
empty squares as two adjacent digits, and the clock fields are canonical
decimal numerals (no leading zeros). -/
def validFEN (t : List Char) : Bool :=
  match splitOnChar ' ' t with
  | [b, a, c, e, hm, fm] =>
    claimValidBoard b && (splitOnChar '/' b).all noAdjacentDigits &&
    (a == ['w'] || a == ['b']) && decide (c ∈ castlingStrings) &&
    claimValidEp e && canonicalNat hm && (canonicalNat fm && fm.any (fun x => x != '0'))
  | _ => false

/-! ### C2: castling rook relocation -/

/-- C2 (code_bug): black kingside castling is mis-wired.  From
`r3k2r/pppppppp/8/8/8/8/PPPPPPPP/R3K2R b kq - 0 1`, after the legal
castling move e8→g8 the board has no rook on f8, black's rook still on
h8, and **white's** h1 rook relocated to f1 (the source's `g8` branch
reads `BoardSquare('h1')`/`BoardSquare('f1')`), contradicting the
claimed h8→f8 relocation. -/
theorem black_kingside_castle_misplaces_rook :
    ((Game.ofFen ("r3k2r/pppppppp/8/8/8/8/PPPPPPPP/R3K2R b kq - 0 1".toList)).bind
      (fun g => (g.move ⟨bsq 'e' 8, bsq 'g' 8, none⟩).toOption)).map
      (fun g2 => (piece_at g2.board (bsq 'g' 8), piece_at g2.board (bsq 'f' 8),
                  piece_at g2.board (bsq 'h' 8), piece_at g2.board (bsq 'f' 1),
                  piece_at g2.board (bsq 'h' 1))) =
    some (some 'k', none, some 'r', some 'R', none) := by decide

/-! ### C3: castling while in check -/

/-- C3 (code_bug): because of Python operator precedence in
`piece == 'k' or piece == 'K' and start not in opposing_threats`, the
"own square not attacked" guard applies to white kings only.  In
`4k2r/8/8/8/8/8/8/4R1K1 b k - 0 1` black is in check, e8 is attacked by
white, and `valid_ends('e8')` still offers the castling destination
g8. -/
theorem black_king_in_check_offered_castling :
    (Game.ofFen ("4k2r/8/8/8/8/8/8/4R1K1 b k - 0 1".toList)).map
      (fun g => decide ('b' ∈ check_status g.board) &&
        decide (bsq 'e' 8 ∈ threat_squares_of g.board 'w') &&
        (match valid_ends g (bsq 'e' 8) true with
         | .ok l => decide (bsq 'g' 8 ∈ l)
         | .error _ => false)) = some true := by decide

/-! ### C4: half-move clock -/

/-- C4 (code_bug): `Game.move` resets the half-move clock only for pawn
moves, never for captures.  In `k7/8/8/8/8/8/8/K5Rr w - - 5 1` the move
g1→h1 captures the black rook on h1, yet the resulting half-move clock
is 6, not the claimed 0. -/
theorem capture_does_not_reset_halfmove :
    (Game.ofFen ("k7/8/8/8/8/8/8/K5Rr w - - 5 1".toList)).map
      (fun g => piece_at g.board (bsq 'h' 1)) = some (some 'r') ∧
    ((Game.ofFen ("k7/8/8/8/8/8/8/K5Rr w - - 5 1".toList)).bind
      (fun g => (g.move ⟨bsq 'g' 1, bsq 'h' 1, none⟩).toOption)).map Game.halfmove =
      some 6 := by decide

/-! ### C6: promotion validation -/

/-- C6 (code_bug): `WHITE_PROMOTION_OPTIONS` is `frozenset('PRNBKQ') -
set('P')`, which still contains `'K'`: promoting a pawn to a king
validates (`validate_move` returns no error) and `move` happily places
a second white king on a8, contradicting the claimed
`InvalidPromotionDataException`. -/
theorem promotion_to_king_accepted :
    (Game.ofFen ("4k3/P7/8/8/8/8/8/4K3 w - - 0 1".toList)).map
      (fun g => validate_move g ⟨bsq 'a' 7, bsq 'a' 8, some 'K'⟩) = some none ∧
    ((Game.ofFen ("4k3/P7/8/8/8/8/8/4K3 w - - 0 1".toList)).bind
      (fun g => (g.move ⟨bsq 'a' 7, bsq 'a' 8, some 'K'⟩).toOption)).map
      (fun g2 => piece_at g2.board (bsq 'a' 8)) = some (some 'K') := by decide

theorem boardShape_set_square (b : Board) (s : BoardSquare) (v : Option Char)
    (hb : BoardShape b) : BoardShape (set_square b s v) := by
  obtain ⟨hl, hr⟩ := hb
  unfold set_square
  by_cases hlt : (to_board_coordinates s).1.toNat < b.length
  · constructor
    · rw [List.length_set]; exact hl
    · intro r hrmem
      rcases List.mem_or_eq_of_mem_set hrmem with h | h
      · exact hr r h
      · subst h
        rw [List.length_set]
        have hget : b.getD (to_board_coordinates s).1.toNat [] =
            b[(to_board_coordinates s).1.toNat] := by
          simp [List.getD_eq_getElem?_getD, List.getElem?_eq_getElem, hlt]
        rw [hget]
        exact hr _ (List.getElem_mem hlt)
  · rw [List.set_eq_of_length_le (by omega)]
    exact ⟨hl, hr⟩

theorem piece_at_set_square_self (b : Board) (s : BoardSquare) (v : Option Char)
    (hb : BoardShape b) (hs : validSquare s = true) :
    piece_at (set_square b s v) s = v := by
  obtain ⟨hl, hr⟩ := hb
  have hsv : 1 ≤ s.rank_ ∧ s.rank_ ≤ 8 ∧ 97 ≤ s.file_ ∧ s.file_ ≤ 104 := by
    simpa [validSquare, Bool.and_eq_true, decide_eq_true_eq, and_assoc] using hs
  have hi : (8 - s.rank_).toNat < 8 := by omega
  have hj : (s.file_ - 97).toNat < 8 := by omega
  unfold piece_at set_square to_board_coordinates
  simp only
  have hib : (8 - s.rank_).toNat < b.length := by omega
  have hrow : b.getD (8 - s.rank_).toNat [] = b[(8 - s.rank_).toNat] := by
    simp [List.getD_eq_getElem?_getD, List.getElem?_eq_getElem, hib]
  have hrlen : (b.getD (8 - s.rank_).toNat []).length = 8 := by
    rw [hrow]; exact hr _ (List.getElem_mem hib)
  have hset : (b.set (8 - s.rank_).toNat
      ((b.getD (8 - s.rank_).toNat []).set (s.file_ - 97).toNat v)).getD
      (8 - s.rank_).toNat [] = (b.getD (8 - s.rank_).toNat []).set (s.file_ - 97).toNat v := by
    simp [List.getD_eq_getElem?_getD, List.getElem?_set_self', hib]
  rw [hset]
  have hjr : (s.file_ - 97).toNat < (b.getD (8 - s.rank_).toNat []).length := by omega
  have hblen : (b[(8 - s.rank_).toNat]).length = 8 := by rw [← hrow]; exact hrlen
  have hjb : (s.file_ - 97).toNat < (b[(8 - s.rank_).toNat]).length := by rw [hblen]; omega
  simp [List.getD_eq_getElem?_getD, List.getElem?_set_self', List.getElem?_eq_getElem, hib, hjb,
    Function.const_apply]

theorem boardShape_board_from_move (b : Board) (m : BasicMove) (ep : Option BoardSquare)
    (hb : BoardShape b) : BoardShape (board_from_move b m ep) := by
  unfold board_from_move
  dsimp only
  repeat' split
  all_goals repeat (first | exact hb | apply boardShape_set_square)

theorem board_of_fen_shape (s : List Char) (b : Board) (h : board_of_fen s = some b) :
    BoardShape b := by
  unfold board_of_fen at h
  dsimp only at h
  split at h
  · rename_i hcond
    injection h with h
    subst h
    simp only [Bool.and_eq_true, List.all_eq_true, beq_iff_eq] at hcond
    exact ⟨hcond.2, fun r hr => hcond.1 r hr⟩
  · exact absurd h (by simp)

theorem ofFen_boardShape (t : List Char) (g : Game) (h : Game.ofFen t = some g) :
    BoardShape g.board := by
  unfold Game.ofFen at h
  split at h
  · injection h with h
    subst h
    exact ⟨by decide, by decide⟩
  · split at h
    · split at h
      · split at h
        · injection h with h
          subst h
          exact board_of_fen_shape _ _ (by assumption)
        · exact absurd h (by simp)
      · exact absurd h (by simp)
    · exact absurd h (by simp)

/-- On a move ending on the en-passant target, `board_from_move` is the
plain move followed by clearing the square one rank beyond the target in
the mover's direction (north of a rank-3 target, south of a rank-6
one). -/
theorem board_from_move_ep_eq (b : Board) (m : BasicMove) (e : BoardSquare)
    (hend : m.end_ = e) (hv : validSquare e = true)
    (hrank : e.rank_ = 3 ∨ e.rank_ = 6) :
    board_from_move b m (some e) =
      set_square (board_from_move b m none)
        ⟨e.file_, if e.rank_ = 3 then e.rank_ + 1 else e.rank_ - 1⟩ none := by
  simp only [validSquare, Bool.and_eq_true, decide_eq_true_eq, and_assoc] at hv
  rcases hrank with h3 | h6
  · have hd : delta m.end_ 0 1 = some ⟨e.file_, e.rank_ + 1⟩ := by
      rw [hend]
      unfold delta
      rw [if_pos]
      · simp
      · simp only [validSquare, Bool.and_eq_true, decide_eq_true_eq, and_assoc]
        omega
    unfold board_from_move
    dsimp only
    rw [if_pos hend, if_pos h3, hd, h3]
    simp
  · have hd : delta m.end_ 0 (-1) = some ⟨e.file_, e.rank_ - 1⟩ := by
      rw [hend]
      unfold delta
      rw [if_pos]
      · simp; omega
      · simp only [validSquare, Bool.and_eq_true, decide_eq_true_eq, and_assoc]
        omega
    unfold board_from_move
    dsimp only
    rw [if_pos hend, if_neg (by omega : ¬ e.rank_ = 3), if_pos h6, hd,
      if_neg (by omega : ¬ e.rank_ = 3)]

/-- Every move onto the en-passant target clears the square one rank
beyond it in the mover's direction (shared core of the en-passant
claims). -/
theorem ep_capture_clears_square (b : Board) (m : BasicMove) (e : BoardSquare)
    (hb : BoardShape b) (hend : m.end_ = e) (hv : validSquare e = true)
    (hrank : e.rank_ = 3 ∨ e.rank_ = 6) :
    piece_at (board_from_move b m (some e))
      ⟨e.file_, if e.rank_ = 3 then e.rank_ + 1 else e.rank_ - 1⟩ = none := by
  rw [board_from_move_ep_eq b m e hend hv hrank]
  refine piece_at_set_square_self _ _ _ (boardShape_board_from_move b m none hb) ?_
  simp only [validSquare, Bool.and_eq_true, decide_eq_true_eq, and_assoc] at hv ⊢
  rcases hrank with h | h <;> rw [h] <;> simp <;> omega

/-- A successful `Game.move` applies `board_from_move` to the reparsed
board with the *caller's* en-passant target. -/
theorem move_ok_board (g : Game) (m : BasicMove) (g2 : Game) (h : g.move m = .ok g2) :
    ∃ ng0, Game.ofFen (Game.fen g) = some ng0 ∧
      g2.board = board_from_move ng0.board m g.en_passant := by
  unfold Game.move at h
  split at h
  · exact absurd h (by simp)
  · split at h
    · exact absurd h (by simp)
    · rename_i ng0 hng0
      refine ⟨ng0, hng0, ?_⟩
      injection h with h
      subst h
      rfl

/-! ### C7: direction of the en-passant removal -/

/-- C7 (counterexample): with en-passant target b3 (rank 3) and the move
a4→b3, `board_from_move` does **not** remove the piece on the square
south of the target — b2 still holds its white pawn — while the square
north of the target, b4, is the one cleared.  The claim's "south of the
target when the target is on rank 3" is therefore false on the code. -/
theorem en_passant_south_removal_refuted :
    piece_at epCaptureBoard (bsq 'b' 2) = some 'P' ∧
    piece_at epCaptureBoard (bsq 'b' 4) = some 'P' ∧
    piece_at (board_from_move epCaptureBoard ⟨bsq 'a' 4, bsq 'b' 3, none⟩ (some (bsq 'b' 3)))
      (bsq 'b' 2) = some 'P' ∧
    piece_at (board_from_move epCaptureBoard ⟨bsq 'a' 4, bsq 'b' 3, none⟩ (some (bsq 'b' 3)))
      (bsq 'b' 4) = none := by decide

/-- C7 (amended): for every 8×8 board and every move whose end square
equals the en-passant target, `board_from_move` clears the square one
rank beyond the target in the mover's direction: **north** (one rank
higher) of a rank-3 target and **south** (one rank lower) of a rank-6
target. -/
theorem en_passant_capture_removes_pawn_towards_mover
    (b : Board) (m : BasicMove) (e : BoardSquare)
    (hb : BoardShape b) (hend : m.end_ = e) (hv : validSquare e = true)
    (hrank : e.rank_ = 3 ∨ e.rank_ = 6) :
    piece_at (board_from_move b m (some e))
      ⟨e.file_, if e.rank_ = 3 then e.rank_ + 1 else e.rank_ - 1⟩ = none :=
  ep_capture_clears_square b m e hb hend hv hrank

/-- C7's amended statement at the concrete counterexample position. -/
theorem en_passant_towards_mover_witness :
    piece_at (board_from_move epCaptureBoard ⟨bsq 'a' 4, bsq 'b' 3, none⟩ (some (bsq 'b' 3)))
      (bsq 'b' 4) = none := by
  simpa using en_passant_capture_removes_pawn_towards_mover epCaptureBoard
    ⟨bsq 'a' 4, bsq 'b' 3, none⟩ (bsq 'b' 3) ⟨by decide, by decide⟩ rfl (by decide) (Or.inl rfl)

/-! ### C10: any piece landing on the en-passant target triggers the removal -/

/-- C10: for every game with its en-passant target set (on rank 3 or 6,
the only ranks `Game.move` ever produces) and every legal move of any
piece kind ending on that target, the resulting board has no piece on
the square adjacent to the target (rank 4 for a rank-3 target, rank 5
for a rank-6 target). -/
theorem move_onto_en_passant_target_removes_adjacent
    (g : Game) (m : BasicMove) (g2 : Game) (e : BoardSquare)
    (hmove : g.move m = .ok g2) (hep : g.en_passant = some e)
    (hend : m.end_ = e) (hv : validSquare e = true)
    (hrank : e.rank_ = 3 ∨ e.rank_ = 6) :
    piece_at g2.board ⟨e.file_, if e.rank_ = 3 then 4 else 5⟩ = none := by
  obtain ⟨ng0, hng0, hboard⟩ := move_ok_board g m g2 hmove
  rw [hboard, hep]
  have hmain := ep_capture_clears_square ng0.board m e
    (ofFen_boardShape _ _ hng0) hend hv hrank
  rcases hrank with h | h <;> rw [h] at hmain ⊢ <;> simpa using hmain

/-- C10 at a concrete input: the knight move b5→a3 onto the en-passant
target deletes the white pawn on a4. -/
theorem knight_onto_en_passant_target_witness :
    piece_at knightEpMoved.board (bsq 'a' 4) = none := by
  have h : knightEpGame.move ⟨bsq 'b' 5, bsq 'a' 3, none⟩ = .ok knightEpMoved := by decide
  simpa using move_onto_en_passant_target_removes_adjacent knightEpGame
    ⟨bsq 'b' 5, bsq 'a' 3, none⟩ knightEpMoved (bsq 'a' 3) h (by decide) rfl (by decide)
    (Or.inl rfl)

/-- One single-step `_generate_ends` ray as a filter. -/
theorem gen_step_spec (b : Board) (col : Option Char) (s : BoardSquare) (rd fd : Int) :
    generate_ends b col s rd fd 1 true =
      ([delta s fd rd].filterMap id).filter
        (fun t => match piece_at b t with
          | none => true
          | some q => colour_of_piece q != col) := by
  unfold generate_ends
  cases hd : delta s fd rd with
  | none => rfl
  | some pos =>
    cases hp : piece_at b pos with
    | none => simp [hp, generate_ends]
    | some q =>
      by_cases hq : colour_of_piece q = col <;> simp [hp, hq]

theorem filter_pair (f : BoardSquare → Bool) (a c : BoardSquare) :
    List.filter f [a, c] = List.filter f [a] ++ List.filter f [c] := by
  cases h : f a <;> simp [List.filter_cons, h]

/-! ### C8: pawn threat squares -/

/-- C8 (counterexample): d3 is an on-board forward diagonal of the white
pawn on e2, but it is occupied by a friendly piece and
`Pawn.threat_squares` omits it — the threat set is `{f3}`, not the
claimed occupancy-independent `{d3, f3}`. -/
theorem pawn_threats_occupancy_refuted :
    delta (bsq 'e' 2) (-1) 1 = some (bsq 'd' 3) ∧
    piece_at pawnThreatBoard (bsq 'd' 3) = some 'P' ∧
    threat_squares 'P' pawnThreatBoard (bsq 'e' 2) = [bsq 'f' 3] ∧
    bsq 'd' 3 ∉ threat_squares 'P' pawnThreatBoard (bsq 'e' 2) := by decide

/-- C8 (amended): a pawn's `threat_squares` is exactly the set of
on-board forward-diagonal squares that are not occupied by a
same-colour piece, for both colours. -/
theorem pawn_threats_eq_spec (b : Board) (s : BoardSquare) :
    threat_squares 'P' b s = pawnThreatSpec b s 1 (some 'w') ∧
    threat_squares 'p' b s = pawnThreatSpec b s (-1) (some 'b') := by
  constructor
  · have h : threat_squares 'P' b s =
        generate_ends b (some 'w') s 1 (-1) 1 true ++ generate_ends b (some 'w') s 1 1 1 true := by
      show ([(-1 : Int), 1].flatMap fun one =>
        generate_ends b (colour_of_piece 'P') s 1 one 1 true) = _
      rw [show colour_of_piece 'P' = some 'w' from rfl]
      simp
    rw [h, gen_step_spec, gen_step_spec]
    unfold pawnThreatSpec
    cases hd1 : delta s (-1) 1 <;> cases hd2 : delta s 1 1 <;>
      simp [hd1, hd2, filter_pair]
  · have h : threat_squares 'p' b s =
        generate_ends b (some 'b') s (-1) (-1) 1 true ++ generate_ends b (some 'b') s (-1) 1 1 true := by
      show ([(-1 : Int), 1].flatMap fun one =>
        generate_ends b (colour_of_piece 'p') s (-1) one 1 true) = _
      rw [show colour_of_piece 'p' = some 'b' from rfl]
      simp
    rw [h, gen_step_spec, gen_step_spec]
    unfold pawnThreatSpec
    cases hd1 : delta s (-1) (-1) <;> cases hd2 : delta s 1 (-1) <;>
      simp [hd1, hd2, filter_pair]

/-! ### C1: checkmate and stalemate -/

/-- When the square holds a piece of the active colour, `valid_ends`
returns normally (neither of its two exceptions fires). -/
theorem valid_ends_ok_of_active (g : Game) (sq : BoardSquare) (p : Char)
    (hp : piece_at g.board sq = some p)
    (hc : ∃ c, colour_of_piece p = some c ∧ g.active = [c]) :
    ∃ l, valid_ends g sq true = .ok l := by
  obtain ⟨c, hcol, hact⟩ := hc
  unfold valid_ends
  simp only [hp, hcol, hact]
  simp

/-- `Game._can_move` returns `False` exactly when every square holding a
piece of the active colour has an empty `valid_ends` set. -/
theorem can_move_false_iff (g : Game) :
    can_move g = false ↔
      ∀ sq ∈ allSquares, ∀ p, piece_at g.board sq = some p →
        (∃ c, colour_of_piece p = some c ∧ g.active = [c]) →
        valid_ends g sq true = .ok [] := by
  unfold can_move
  rw [List.any_eq_false]
  constructor
  · intro h sq hsq p hp hc
    have hx := h sq hsq
    obtain ⟨c, hcol, hact⟩ := hc
    obtain ⟨l, hl⟩ := valid_ends_ok_of_active g sq p hp ⟨c, hcol, hact⟩
    simp only [hp, hcol, hact, hl] at hx
    simp at hx
    rw [hl, hx]
  · intro h sq hsq
    cases hp : piece_at g.board sq with
    | none => simp [hp]
    | some p =>
      cases hcol : colour_of_piece p with
      | none => simp [hp, hcol]
      | some c =>
        by_cases hact : g.active = [c]
        · have hends := h sq hsq p hp ⟨c, hcol, hact⟩
          simp [hp, hcol, hact, hends]
        · simp [hp, hcol, hact]

/-- C1: `is_checkmate` is true exactly when the active colour is in the
board's check set and every square holding one of its pieces has an
empty `valid_ends` set; `is_stalemate` is the same with the check
condition negated; and `rr2k3/8/8/8/8/8/8/K7 w - - 0 1` is checkmate. -/
theorem checkmate_stalemate_characterisation :
    (∀ g : Game, is_checkmate g = true ↔
      ((∃ c ∈ check_status g.board, g.active = [c]) ∧
       ∀ sq ∈ allSquares, ∀ p, piece_at g.board sq = some p →
         (∃ c, colour_of_piece p = some c ∧ g.active = [c]) →
         valid_ends g sq true = .ok [])) ∧
    (∀ g : Game, is_stalemate g = true ↔
      ((¬ ∃ c ∈ check_status g.board, g.active = [c]) ∧
       ∀ sq ∈ allSquares, ∀ p, piece_at g.board sq = some p →
         (∃ c, colour_of_piece p = some c ∧ g.active = [c]) →
         valid_ends g sq true = .ok [])) ∧
    (Game.ofFen ("rr2k3/8/8/8/8/8/8/K7 w - - 0 1".toList)).map is_checkmate = some true := by
  refine ⟨fun g => ?_, fun g => ?_, by decide⟩
  · unfold is_checkmate
    rw [Bool.and_eq_true, Bool.not_eq_true', can_move_false_iff, List.any_eq_true]
    simp only [decide_eq_true_eq]
  · unfold is_stalemate
    rw [Bool.and_eq_true, Bool.not_eq_true', Bool.not_eq_true', can_move_false_iff,
      List.any_eq_false]
    simp only [decide_eq_true_eq]
    constructor
    · rintro ⟨h1, h2⟩
      exact ⟨fun ⟨c, hc, hact⟩ => h1 c hc hact, h2⟩
    · rintro ⟨h1, h2⟩
      exact ⟨fun c hc hact => h1 ⟨c, hc, hact⟩, h2⟩

/-! ### C5: FEN round trip -/

theorem splitOnChar_ne_nil (sep : Char) (s : List Char) : splitOnChar sep s ≠ [] := by
  cases s with
  | nil => simp [splitOnChar]
  | cons c cs =>
    unfold splitOnChar
    cases splitOnChar sep cs with
    | nil => simp
    | cons r rs => by_cases h : c = sep <;> simp [h]

theorem joinSep_splitOnChar (sep : Char) (s : List Char) :
    joinSep sep (splitOnChar sep s) = s := by
  induction s with
  | nil => rfl
  | cons c cs ih =>
    unfold splitOnChar
    cases hs : splitOnChar sep cs with
    | nil => exact absurd hs (splitOnChar_ne_nil sep cs)
    | cons r rs =>
      rw [hs] at ih
      show joinSep sep (if c = sep then [] :: r :: rs else (c :: r) :: rs) = c :: cs
      by_cases hc : c = sep
      · rw [if_pos hc]
        show [] ++ sep :: joinSep sep (r :: rs) = c :: cs
        rw [ih, hc]
        rfl
      · rw [if_neg hc]
        cases rs with
        | nil =>
          show c :: r = c :: cs
          rw [show joinSep sep [r] = r from rfl] at ih
          rw [ih]
        | cons r2 rs2 =>
          show (c :: r) ++ sep :: joinSep sep (r2 :: rs2) = c :: cs
          have h2 : r ++ sep :: joinSep sep (r2 :: rs2) = cs := ih
          rw [List.cons_append, h2]

theorem digitVal_digitChar (n : Nat) (h : n < 10) : digitVal (digitChar n) = some n := by
  interval_cases n <;> decide

theorem digitChar_digitVal (c : Char) (h0 : '0' ≤ c) :
    digitChar (c.toNat - 48) = c := by
  have h48 : 48 ≤ c.toNat := h0
  unfold digitChar
  rw [show 48 + (c.toNat - 48) = c.toNat by omega]
  exact Char.ofNat_toNat c

theorem natReprAux_fuel (f1 : Nat) : ∀ (f2 n : Nat), n < f1 → n < f2 →
    natReprAux f1 n = natReprAux f2 n := by
  induction f1 with
  | zero => omega
  | succ f1' ih =>
    intro f2 n h1 h2
    cases f2 with
    | zero => omega
    | succ f2' =>
      show (if n < 10 then [digitChar n] else natReprAux f1' (n / 10) ++ [digitChar (n % 10)]) =
        (if n < 10 then [digitChar n] else natReprAux f2' (n / 10) ++ [digitChar (n % 10)])
      by_cases h : n < 10
      · rw [if_pos h, if_pos h]
      · have hdiv : n / 10 < n := Nat.div_lt_self (by omega) (by omega)
        rw [if_neg h, if_neg h, ih f2' (n / 10) (by omega) (by omega)]

/-- The recursion equation of `natRepr`, fuel eliminated. -/
theorem natRepr_eq (n : Nat) :
    natRepr n = if n < 10 then [digitChar n] else natRepr (n / 10) ++ [digitChar (n % 10)] := by
  show natReprAux (n + 1) n = _
  by_cases h : n < 10
  · rw [if_pos h]
    show (if n < 10 then _ else _) = _
    rw [if_pos h]
  · have hdiv : n / 10 < n := Nat.div_lt_self (by omega) (by omega)
    rw [if_neg h]
    show (if n < 10 then _ else _) = _
    rw [if_neg h]
    unfold natRepr
    rw [natReprAux_fuel n (n / 10 + 1) (n / 10) (by omega) (by omega)]

theorem natRepr_ne_nil (n : Nat) : natRepr n ≠ [] := by
  rw [natRepr_eq]
  by_cases h : n < 10 <;> simp [h]

theorem parseDigitsAux_append (xs : List Char) : ∀ (ys : List Char) (a : Nat),
    parseDigitsAux (xs ++ ys) a =
      match parseDigitsAux xs a with
      | some v => parseDigitsAux ys v
      | none => none := by
  induction xs with
  | nil => intro ys a; rfl
  | cons c cs ih =>
    intro ys a
    cases hd : digitVal c with
    | none => simp only [List.cons_append, parseDigitsAux, hd]
    | some d =>
      simp only [List.cons_append, parseDigitsAux, hd]
      rw [show cs.append ys = cs ++ ys from rfl, ih]

theorem parseDigitsAux_natRepr (n : Nat) : ∀ (a : Nat),
    parseDigitsAux (natRepr n) a = some (a * 10 ^ (natRepr n).length + n) := by
  induction n using Nat.strong_induction_on with
  | _ n ih =>
    intro a
    rw [natRepr_eq]
    by_cases h : n < 10
    · rw [if_pos h]
      show (match digitVal (digitChar n) with
            | some d => parseDigitsAux [] (a * 10 + d)
            | none => none) = _
      rw [digitVal_digitChar n h]
      show some (a * 10 + n) = _
      norm_num
    · have hdiv : n / 10 < n := Nat.div_lt_self (by omega) (by omega)
      rw [if_neg h, parseDigitsAux_append, ih (n / 10) hdiv a]
      show parseDigitsAux [digitChar (n % 10)] _ = _
      show (match digitVal (digitChar (n % 10)) with
            | some d => parseDigitsAux [] ((a * 10 ^ (natRepr (n / 10)).length + n / 10) * 10 + d)
            | none => none) = _
      rw [digitVal_digitChar (n % 10) (by omega)]
      show some ((a * 10 ^ (natRepr (n / 10)).length + n / 10) * 10 + n % 10) = _
      congr 1
      rw [List.length_append, List.length_singleton, pow_succ]
      have : n / 10 * 10 + n % 10 = n := by omega
      ring_nf
      omega

theorem parseNatDigits_natRepr (n : Nat) : parseNatDigits (natRepr n) = some n := by
  have hne := natRepr_ne_nil n
  have heq : parseNatDigits (natRepr n) = parseDigitsAux (natRepr n) 0 := by
    cases hr : natRepr n with
    | nil => exact absurd hr hne
    | cons c cs => rfl
  rw [heq, parseDigitsAux_natRepr n 0]
  norm_num

theorem digitVal_isSome_of_isDigit (c : Char) (h : isDigitChar c = true) :
    digitVal c = some (c.toNat - 48) := by
  simp only [isDigitChar, Bool.and_eq_true, decide_eq_true_eq] at h
  unfold digitVal
  rw [if_pos ⟨h.1, h.2⟩]

theorem parseDigitsAux_ge (s : List Char) : ∀ (a v : Nat),
    parseDigitsAux s a = some v → a ≤ v := by
  induction s with
  | nil =>
    intro a v h
    injection h with h
    omega
  | cons c cs ih =>
    intro a v h
    cases hd : digitVal c with
    | none => rw [show parseDigitsAux (c :: cs) a =
        (match digitVal c with
         | some d => parseDigitsAux cs (a * 10 + d)
         | none => none) from rfl, hd] at h; exact absurd h (by simp)
    | some d =>
      rw [show parseDigitsAux (c :: cs) a =
        (match digitVal c with
         | some d => parseDigitsAux cs (a * 10 + d)
         | none => none) from rfl, hd] at h
      have := ih (a * 10 + d) v h
      omega

theorem parseDigitsAux_all_digits (s : List Char) : ∀ (a : Nat),
    s.all isDigitChar = true → ∃ v, parseDigitsAux s a = some v := by
  induction s with
  | nil => intro a _; exact ⟨a, rfl⟩
  | cons c cs ih =>
    intro a h
    simp only [List.all_cons, Bool.and_eq_true] at h
    obtain ⟨v, hv⟩ := ih (a * 10 + (c.toNat - 48)) h.2
    refine ⟨v, ?_⟩
    rw [show parseDigitsAux (c :: cs) a =
      (match digitVal c with
       | some d => parseDigitsAux cs (a * 10 + d)
       | none => none) from rfl, digitVal_isSome_of_isDigit c h.1]
    exact hv

theorem toNat_ne_48_of_ne_zero (c : Char) (h : c ≠ '0') : c.toNat ≠ 48 := by
  intro hc
  exact h (by rw [← Char.ofNat_toNat c, hc])

theorem parseNatDigits_cons (x : Char) (xs : List Char) :
    parseNatDigits (x :: xs) = parseDigitsAux (x :: xs) 0 := rfl

/-- Printing is a left inverse of parsing on canonical numerals. -/
theorem natRepr_parse_canonical (s : List Char) :
    canonicalNat s = true → ∀ n, parseNatDigits s = some n → natRepr n = s := by
  induction s using List.reverseRecOn with
  | nil => intro hc; simp [canonicalNat, claimValidClock] at hc
  | append_singleton s' c ih =>
    intro hc n hp
    have hdigs : (s' ++ [c]).all isDigitChar = true := by
      simp only [canonicalNat, claimValidClock, Bool.and_eq_true] at hc
      exact hc.1.2
    have hdig : s'.all isDigitChar = true ∧ isDigitChar c = true := by
      simp only [List.all_append, List.all_cons, List.all_nil, Bool.and_eq_true,
        Bool.and_true] at hdigs
      exact ⟨hdigs.1, hdigs.2⟩
    have hcbounds : 48 ≤ c.toNat ∧ c.toNat ≤ 57 := by
      have := hdig.2
      simp only [isDigitChar, Bool.and_eq_true, decide_eq_true_eq] at this
      exact ⟨this.1, this.2⟩
    cases hs' : s' with
    | nil =>
      subst hs'
      simp only [List.nil_append] at hp ⊢
      rw [parseNatDigits_cons] at hp
      rw [show parseDigitsAux [c] 0 =
        (match digitVal c with
         | some d => parseDigitsAux [] (0 * 10 + d)
         | none => none) from rfl, digitVal_isSome_of_isDigit c hdig.2] at hp
      injection hp with hp
      rw [natRepr_eq, ← hp, if_pos (by omega : (0 * 10 + (c.toNat - 48)) < 10),
        show 0 * 10 + (c.toNat - 48) = c.toNat - 48 by omega,
        digitChar_digitVal c hcbounds.1]
    | cons d rest =>
      have hdne : d ≠ '0' := by
        intro hd0
        subst hd0
        rw [hs'] at hc
        simp only [canonicalNat, claimValidClock, Bool.and_eq_true, Bool.or_eq_true,
          beq_iff_eq, List.head?_cons, bne_iff_ne] at hc
        rcases hc.2 with h | h
        · exact absurd h (by simp)
        · exact h rfl
      have hcanon' : canonicalNat s' = true := by
        rw [hs']
        simp only [canonicalNat, claimValidClock, Bool.and_eq_true, Bool.or_eq_true,
          beq_iff_eq, List.head?_cons, bne_iff_ne]
        refine ⟨⟨by simp, ?_⟩, Or.inr (by simpa using hdne)⟩
        have := hdig.1
        rw [hs'] at this
        exact this
      obtain ⟨v, hv⟩ := parseDigitsAux_all_digits s' 0 hdig.1
      have hpv : parseNatDigits s' = some v := by rw [hs', parseNatDigits_cons, ← hs', hv]
      have hIH := ih hcanon' v hpv
      have hdbound : 49 ≤ d.toNat ∧ d.toNat ≤ 57 := by
        have hall := hdig.1
        rw [hs'] at hall
        simp only [List.all_cons, Bool.and_eq_true, isDigitChar, decide_eq_true_eq] at hall
        have h48 : (48 : Nat) ≤ d.toNat := hall.1.1
        have h57 : d.toNat ≤ 57 := hall.1.2
        have := toNat_ne_48_of_ne_zero d hdne
        exact ⟨by omega, h57⟩
      have hvge : d.toNat - 48 ≤ v := by
        rw [hs'] at hv
        rw [show parseDigitsAux (d :: rest) 0 =
          (match digitVal d with
           | some x => parseDigitsAux rest (0 * 10 + x)
           | none => none) from rfl, digitVal_isSome_of_isDigit d (by
            simp only [isDigitChar, Bool.and_eq_true, decide_eq_true_eq]
            exact ⟨by exact_mod_cast (by omega : 48 ≤ d.toNat), by exact hdbound.2⟩)] at hv
        have := parseDigitsAux_ge rest (0 * 10 + (d.toNat - 48)) v hv
        omega
      have hn : n = v * 10 + (c.toNat - 48) := by
        rw [hs'] at hp
        rw [show ((d :: rest) ++ [c]) = d :: (rest ++ [c]) from rfl, parseNatDigits_cons,
          show (d :: (rest ++ [c])) = (d :: rest) ++ [c] from rfl,
          parseDigitsAux_append, ← hs', hv] at hp
        dsimp only at hp
        rw [show parseDigitsAux [c] v =
          (match digitVal c with
           | some x => parseDigitsAux [] (v * 10 + x)
           | none => none) from rfl, digitVal_isSome_of_isDigit c hdig.2] at hp
        injection hp with hp
        omega
      have hv1 : 1 ≤ v := by omega
      rw [hn, natRepr_eq, if_neg (by omega : ¬ (v * 10 + (c.toNat - 48) < 10))]
      rw [show (v * 10 + (c.toNat - 48)) / 10 = v by omega,
        show (v * 10 + (c.toNat - 48)) % 10 = c.toNat - 48 by omega,
        hIH, digitChar_digitVal c hcbounds.1, hs']

theorem noAdjacentDigits_tail (c : Char) (rest : List Char)
    (h : noAdjacentDigits (c :: rest) = true) : noAdjacentDigits rest = true := by
  cases rest with
  | nil => rfl
  | cons c2 rest2 =>
    have h2 : (!(isDigit18 c && isDigit18 c2) && noAdjacentDigits (c2 :: rest2)) = true := h
    simp only [Bool.and_eq_true] at h2
    exact h2.2

theorem rowStrAux_replicate (j : Nat) : ∀ (rest : List (Option Char)) (k : Nat),
    rowStrAux (List.replicate j none ++ rest) k = rowStrAux rest (k + j) := by
  induction j with
  | zero => intro rest k; simp
  | succ j' ih =>
    intro rest k
    rw [List.replicate_succ, List.cons_append,
      show rowStrAux (none :: (List.replicate j' none ++ rest)) k =
        rowStrAux (List.replicate j' none ++ rest) (k + 1) from rfl,
      ih rest (k + 1)]
    congr 1
    omega

/-- One rank of the board FEN round-trips whenever no two digits are
adjacent (any non-digit character is reproduced verbatim). -/
theorem rank_round_trip (s : List Char) :
    noAdjacentDigits s = true → rowStrAux (parseRow s) 0 = s := by
  induction s with
  | nil => intro _; rfl
  | cons c rest ih =>
    intro h
    by_cases hd : '1' ≤ c ∧ c ≤ '8'
    · have hto : 49 ≤ c.toNat ∧ c.toNat ≤ 56 := ⟨hd.1, hd.2⟩
      obtain ⟨k, hk⟩ : ∃ k, c.toNat - 48 = k + 1 := ⟨c.toNat - 49, by omega⟩
      have hnat : natRepr (c.toNat - 48) = [c] := by
        rw [natRepr_eq, if_pos (by omega : c.toNat - 48 < 10),
          digitChar_digitVal c (le_trans (by decide) hd.1)]
      rw [show parseRow (c :: rest) =
        if '1' ≤ c ∧ c ≤ '8' then List.replicate (c.toNat - 48) none ++ parseRow rest
        else some c :: parseRow rest from rfl, if_pos hd, rowStrAux_replicate]
      cases hrest : rest with
      | nil =>
        rw [show parseRow ([] : List Char) = [] from rfl, hk,
          show rowStrAux [] (0 + (k + 1)) = natRepr (0 + k + 1) from rfl]
        rw [show 0 + k + 1 = c.toNat - 48 by omega, hnat]
      | cons c2 rest2 =>
        have hnd2 : isDigit18 c2 = false := by
          rw [hrest] at h
          have h2 : (!(isDigit18 c && isDigit18 c2) && noAdjacentDigits (c2 :: rest2)) = true := h
          simp only [Bool.and_eq_true] at h2
          have h3 := h2.1
          have h4 : isDigit18 c = true := by
            simp only [isDigit18, Bool.and_eq_true, decide_eq_true_eq]
            exact ⟨hd.1, hd.2⟩
          simp only [h4, Bool.not_eq_true', Bool.and_eq_true] at h3
          simpa using h3
        have hd2 : ¬ ('1' ≤ c2 ∧ c2 ≤ '8') := by
          intro hcon
          have hT : isDigit18 c2 = true := by
            simp only [isDigit18, Bool.and_eq_true, decide_eq_true_eq]
            exact hcon
          rw [hT] at hnd2
          exact absurd hnd2 (by simp)
        have hIH := ih (h ▸ (noAdjacentDigits_tail c rest h))
        rw [hrest] at hIH
        rw [show parseRow (c2 :: rest2) =
          if '1' ≤ c2 ∧ c2 ≤ '8' then List.replicate (c2.toNat - 48) none ++ parseRow rest2
          else some c2 :: parseRow rest2 from rfl, if_neg hd2] at hIH ⊢
        have hIH2 : rowStrAux (parseRow rest2) 0 = rest2 := by
          have : rowStrAux (some c2 :: parseRow rest2) 0 = c2 :: rowStrAux (parseRow rest2) 0 := rfl
          rw [this] at hIH
          exact (List.cons.injEq _ _ _ _).mp hIH |>.2
        rw [hk, show rowStrAux (some c2 :: parseRow rest2) (0 + (k + 1)) =
          natRepr (0 + k + 1) ++ c2 :: rowStrAux (parseRow rest2) 0 from rfl,
          show 0 + k + 1 = c.toNat - 48 by omega, hnat, hIH2]
        rfl
    · rw [show parseRow (c :: rest) =
        if '1' ≤ c ∧ c ≤ '8' then List.replicate (c.toNat - 48) none ++ parseRow rest
        else some c :: parseRow rest from rfl, if_neg hd,
        show rowStrAux (some c :: parseRow rest) 0 = c :: rowStrAux (parseRow rest) 0 from rfl,
        ih (noAdjacentDigits_tail c rest h)]

theorem board_round_trip (s : List Char)
    (hv : claimValidBoard s = true)
    (hadj : (splitOnChar '/' s).all noAdjacentDigits = true) :
    board_of_fen s = some ((splitOnChar '/' s).map parseRow) ∧
      board_fen ((splitOnChar '/' s).map parseRow) = s := by
  simp only [claimValidBoard, Bool.and_eq_true, beq_iff_eq, List.all_eq_true] at hv
  constructor
  · unfold board_of_fen
    rw [if_pos]
    simp only [Bool.and_eq_true, beq_iff_eq, List.all_eq_true, List.length_map]
    refine ⟨?_, hv.1⟩
    intro r hr
    obtain ⟨l, hl, rfl⟩ := List.mem_map.mp hr
    have := hv.2 l hl
    simp only [claimValidRank, Bool.and_eq_true, beq_iff_eq] at this
    simpa using this.2
  · unfold board_fen
    rw [List.map_map]
    have hmap : (splitOnChar '/' s).map (row_fen ∘ parseRow) = (splitOnChar '/' s).map id := by
      refine List.map_congr_left ?_
      intro l hl
      have hadjl : noAdjacentDigits l = true := by
        simp only [List.all_eq_true] at hadj
        exact hadj l hl
      exact rank_round_trip l hadjl
    rw [hmap, List.map_id, joinSep_splitOnChar]

theorem ep_round_trip (f r : Char) (hf : 'a' ≤ f ∧ f ≤ 'h') (hr : '1' ≤ r ∧ r ≤ '8') :
    parseSquare [f, r] = some ⟨(f.toNat : Int), ((r.toNat - 48 : Nat) : Int)⟩ ∧
      sqStr ⟨(f.toNat : Int), ((r.toNat - 48 : Nat) : Int)⟩ = [f, r] := by
  have hfv : 97 ≤ f.toNat ∧ f.toNat ≤ 104 := ⟨hf.1, hf.2⟩
  have hrv : 49 ≤ r.toNat ∧ r.toNat ≤ 56 := ⟨hr.1, hr.2⟩
  constructor
  · unfold parseSquare
    dsimp only
    rw [digitVal_isSome_of_isDigit r (by
      simp only [isDigitChar, Bool.and_eq_true, decide_eq_true_eq]
      constructor
      · show 48 ≤ r.toNat
        omega
      · show r.toNat ≤ 57
        omega)]
    dsimp only
    rw [if_pos]
    unfold validSquare
    simp only [Bool.and_eq_true, decide_eq_true_eq]
    refine ⟨⟨⟨?_, ?_⟩, ?_⟩, ?_⟩ <;> omega
  · unfold sqStr
    have h1 : ((f.toNat : Int)).toNat = f.toNat := Int.toNat_ofNat _
    have h2 : (((r.toNat - 48 : Nat) : Int)).toNat = r.toNat - 48 := Int.toNat_ofNat _
    rw [h1, h2, Char.ofNat_toNat, natRepr_eq, if_pos (by omega : r.toNat - 48 < 10),
      digitChar_digitVal r (by show 48 ≤ r.toNat; omega)]

theorem castling_round_trip (c : List Char) (h : c ∈ castlingStrings) :
    (castling_of_fen c).fen = c := by
  simp only [castlingStrings, List.mem_cons, List.not_mem_nil, or_false] at h
  rcases h with rfl | rfl | rfl | rfl | rfl | rfl | rfl | rfl | rfl | rfl | rfl | rfl | rfl |
    rfl | rfl | rfl <;> decide

theorem parseInt_digits (s : List Char) (h : claimValidClock s = true) :
    parseInt s = (parseNatDigits s).map (fun n => (n : Int)) := by
  cases s with
  | nil => simp [claimValidClock] at h
  | cons c cs =>
    have hdig : isDigitChar c = true := by
      simp only [claimValidClock, Bool.and_eq_true, List.all_cons] at h
      exact h.2.1
    have hb : 48 ≤ c.toNat ∧ c.toNat ≤ 57 := by
      simp only [isDigitChar, Bool.and_eq_true, decide_eq_true_eq] at hdig
      exact hdig
    have hne1 : c ≠ '-' := by
      intro hc
      subst hc
      simp at hb
    have hne2 : c ≠ '+' := by
      intro hc
      subst hc
      simp at hb
    unfold parseInt
    dsimp only
    rw [if_neg hne1, if_neg hne2]

theorem intRepr_ofNat (v : Nat) : intRepr ((v : Nat) : Int) = natRepr v := by
  unfold intRepr
  rw [if_neg (by omega : ¬ ((v : Nat) : Int) < 0), Int.toNat_ofNat]

theorem claimValidEp_cases (e : List Char) (h : claimValidEp e = true) :
    e = ['-'] ∨ ∃ f r, e = [f, r] ∧ ('a' ≤ f ∧ f ≤ 'h') ∧ ('1' ≤ r ∧ r ≤ '8') := by
  unfold claimValidEp at h
  simp only [Bool.or_eq_true, beq_iff_eq] at h
  rcases h with h | h
  · exact Or.inl h
  · right
    match e, h with
    | [f, r], h =>
      refine ⟨f, r, rfl, ?_⟩
      simp only [Bool.and_eq_true, decide_eq_true_eq] at h
      exact ⟨⟨h.1.1.1, h.1.1.2⟩, ⟨h.1.2, h.2⟩⟩

theorem clock_parse (s : List Char) (hcan : canonicalNat s = true) :
    ∃ v, parseInt s = some ((v : Nat) : Int) ∧ natRepr v = s := by
  have hclk : claimValidClock s = true := by
    simp only [canonicalNat, Bool.and_eq_true] at hcan
    exact hcan.1
  have hne : s ≠ [] := by
    intro h0
    subst h0
    simp [claimValidClock] at hclk
  have hdigits : s.all isDigitChar = true := by
    simp only [claimValidClock, Bool.and_eq_true] at hclk
    exact hclk.2
  obtain ⟨v, hv⟩ := parseDigitsAux_all_digits s 0 hdigits
  have hpn : parseNatDigits s = some v := by
    cases s with
    | nil => exact absurd rfl hne
    | cons c cs => rw [parseNatDigits_cons]; exact hv
  refine ⟨v, ?_, natRepr_parse_canonical s hcan v hpn⟩
  rw [parseInt_digits s hclk, hpn]
  rfl

/-- C5 (amended): every canonical valid FEN string round-trips through
`Game.__init__`/`Game.fen`. -/
theorem fen_round_trip (t : List Char) (h : validFEN t = true) :
    ∃ g, Game.ofFen t = some g ∧ Game.fen g = t := by
  unfold validFEN at h
  split at h
  case h_2 => exact absurd h (by simp)
  case h_1 b a c e hm fm heq =>
    simp only [Bool.and_eq_true] at h
    obtain ⟨⟨⟨⟨⟨⟨hboard, hadj⟩, hactive⟩, hcastle⟩, hep⟩, hhm⟩, hfm, hfmpos⟩ := h
    have ht : t ≠ [] := by
      intro h0
      subst h0
      simp [splitOnChar] at heq
    obtain ⟨hbf, hbs⟩ := board_round_trip b hboard hadj
    obtain ⟨vh, hvh, hvhs⟩ := clock_parse hm hhm
    obtain ⟨vf, hvf, hvfs⟩ := clock_parse fm hfm
    have hcast : (castling_of_fen c).fen = c :=
      castling_round_trip c (of_decide_eq_true hcastle)
    rcases claimValidEp_cases e hep with hE | ⟨f, r, hE, hfb, hrb⟩
    · refine ⟨⟨(splitOnChar '/' b).map parseRow, a, castling_of_fen c, none,
        ((vh : Nat) : Int), ((vf : Nat) : Int)⟩, ?_, ?_⟩
      · unfold Game.ofFen
        rw [if_neg ht, heq]
        dsimp only
        rw [hbf, hvh, hvf]
        dsimp only
        rw [hE, if_pos rfl]
      · unfold Game.fen
        dsimp only
        rw [hbs, hcast, intRepr_ofNat, intRepr_ofNat, hvhs, hvfs, ← hE, ← heq,
          joinSep_splitOnChar]
    · obtain ⟨hps, hss⟩ := ep_round_trip f r hfb hrb
      refine ⟨⟨(splitOnChar '/' b).map parseRow, a, castling_of_fen c,
        some ⟨(f.toNat : Int), ((r.toNat - 48 : Nat) : Int)⟩,
        ((vh : Nat) : Int), ((vf : Nat) : Int)⟩, ?_, ?_⟩
      · unfold Game.ofFen
        rw [if_neg ht, heq]
        dsimp only
        rw [hbf, hvh, hvf]
        dsimp only
        rw [hE, if_neg (by simp), hps]
        rfl
      · unfold Game.fen
        dsimp only
        rw [hbs, hcast, intRepr_ofNat, intRepr_ofNat, hvhs, hvfs, hss, ← hE, ← heq,
          joinSep_splitOnChar]

/-- C5's amended statement at the starting position. -/
theorem fen_round_trip_witness :
    ∃ g, Game.ofFen ("rnbqkbnr/pppppppp/8/8/8/8/PPPPPPPP/RNBQKBNR w KQkq - 0 1".toList) = some g ∧
      Game.fen g = "rnbqkbnr/pppppppp/8/8/8/8/PPPPPPPP/RNBQKBNR w KQkq - 0 1".toList :=
  fen_round_trip _ (by decide)

/-- C5 (counterexample): two FEN strings that are syntactically valid
in exactly the claim's terms but do not round-trip: `44` is a rank of
piece letters and digits 1–8 summing to 8 files yet re-serializes as
`8`, and the non-negative half-move clock `00` re-serializes as `0`. -/
theorem fen_round_trip_claim_refuted :
    (claimValidFEN ("44/8/8/8/8/8/8/8 w - - 0 1".toList) = true ∧
     (Game.ofFen ("44/8/8/8/8/8/8/8 w - - 0 1".toList)).map Game.fen ≠
       some ("44/8/8/8/8/8/8/8 w - - 0 1".toList)) ∧
    (claimValidFEN ("8/8/8/8/8/8/8/8 w - - 00 1".toList) = true ∧
     (Game.ofFen ("8/8/8/8/8/8/8/8 w - - 00 1".toList)).map Game.fen ≠
       some ("8/8/8/8/8/8/8/8 w - - 00 1".toList)) := by decide

end Chess
